import Mathlib

/-!
Verification development for the `covidtrucker.py` script: a shallow
embedding of its data pipeline (loading with fallback, cleaning,
filtering, choropleth merge, textual summary, navigation menu) as Lean
definitions over lists of rows, together with theorems settling the
specified claims.

Dataframes are lists of rows; dates are encoded as naturals (pandas
timestamps are only compared, never computed with); numeric metric
columns are `Option Rat` (`none` models NaN); string columns that may
be missing are `Option String`.
-/

namespace CovidTracker

/-- A row of the raw OWID CSV, restricted to the columns the script
subsets to (`cols` in the source).  Every field may be missing. -/
structure RawRow where
  iso_code : Option String
  location : Option String
  date : Option Nat
  total_cases : Option Rat
  new_cases : Option Rat
  total_deaths : Option Rat
  new_deaths : Option Rat
  total_vaccinations : Option Rat
  people_vaccinated_per_hundred : Option Rat
deriving DecidableEq, Repr

/-- A row after `dropna(subset=['date','location'])`: `location` and
`date` are present, the other columns may still be missing. -/
structure Row where
  iso_code : Option String
  location : String
  date : Nat
  total_cases : Option Rat
  new_cases : Option Rat
  total_deaths : Option Rat
  new_deaths : Option Rat
  total_vaccinations : Option Rat
  people_vaccinated_per_hundred : Option Rat
deriving DecidableEq, Repr

/-- `df[available].dropna(subset=['date', 'location'])`: keep exactly the
rows whose `date` and `location` are non-null, in order. -/
def dropnaRows (raw : List RawRow) : List Row :=
  raw.filterMap fun r =>
    match r.location, r.date with
    | some l, some d =>
        some ⟨r.iso_code, l, d, r.total_cases, r.new_cases, r.total_deaths,
              r.new_deaths, r.total_vaccinations, r.people_vaccinated_per_hundred⟩
    | _, _ => none

/-- The sort key of `sort_values(['location', 'date'])`. -/
def key (r : Row) : String × Nat := (r.location, r.date)

/-- Lexicographic character-list comparison: the string order pandas
sorts the `location` column by. -/
def strLt (a b : String) : Prop := a.data < b.data

/-- Lexicographic order on sort keys: location first, then date. -/
def keyLE (p q : String × Nat) : Prop :=
  strLt p.1 q.1 ∨ (p.1 = q.1 ∧ p.2 ≤ q.2)

/-- Row comparison used by `sort_values(['location', 'date'])`. -/
def rowLE (a b : Row) : Prop := keyLE (key a) (key b)

instance : DecidableRel strLt := fun a b => by
  unfold strLt; infer_instance

instance : DecidableRel keyLE := fun p q => by
  unfold keyLE; infer_instance

instance : DecidableRel rowLE := fun a b => by
  unfold rowLE; infer_instance

/-- String equality follows from equality of the character lists. -/
theorem strData_inj {a b : String} (h : a.data = b.data) : a = b :=
  congrArg String.mk h

theorem strLt_trichotomy (a b : String) : strLt a b ∨ a = b ∨ strLt b a := by
  rcases lt_trichotomy a.data b.data with h | h | h
  · exact Or.inl h
  · exact Or.inr (Or.inl (strData_inj h))
  · exact Or.inr (Or.inr h)

theorem strLt_trans {a b c : String} (h1 : strLt a b) (h2 : strLt b c) :
    strLt a c := lt_trans h1 h2

instance : IsTotal Row rowLE where
  total a b := by
    unfold rowLE keyLE
    rcases strLt_trichotomy a.location b.location with h | h | h
    · exact Or.inl (Or.inl h)
    · rcases Nat.le_total a.date b.date with hd | hd
      · exact Or.inl (Or.inr ⟨h, hd⟩)
      · exact Or.inr (Or.inr ⟨h.symm, hd⟩)
    · exact Or.inr (Or.inl h)

instance : IsTrans Row rowLE where
  trans a b c hab hbc := by
    unfold rowLE keyLE at *
    rcases hab with h1 | ⟨h1, d1⟩
    · rcases hbc with h2 | ⟨h2, _⟩
      · exact Or.inl (strLt_trans h1 h2)
      · exact Or.inl (h2 ▸ h1)
    · rcases hbc with h2 | ⟨h2, d2⟩
      · exact Or.inl (h1 ▸ h2)
      · exact Or.inr ⟨h1.trans h2, d1.trans d2⟩

/-- `df.sort_values(['location', 'date'])`. -/
def sortRows (rows : List Row) : List Row := List.insertionSort rowLE rows

/-- One step of a forward fill: a present value replaces the carry, a
missing one is filled from it. -/
def fstep (c x : Option α) : Option α :=
  match x with
  | some v => some v
  | none => c

/-- Forward fill of a single column, starting from carry `c`. -/
def ffillO (c : Option α) : List (Option α) → List (Option α)
  | [] => []
  | x :: xs => fstep c x :: ffillO (fstep c x) xs

/-- The value a forward fill leaves at the end of `xs` when it starts
from carry `c`: the last non-null entry, else `c`. -/
def lastFill (c : Option α) (xs : List (Option α)) : Option α :=
  xs.foldl fstep c

/-- The running carry of `fillna(method='ffill')`: the last seen
non-null value of every fillable column. -/
structure Carry where
  iso_code : Option String
  total_cases : Option Rat
  new_cases : Option Rat
  total_deaths : Option Rat
  new_deaths : Option Rat
  total_vaccinations : Option Rat
  people_vaccinated_per_hundred : Option Rat
deriving Repr

/-- Carry with nothing seen yet (the state at the top of a group). -/
def emptyCarry : Carry := ⟨none, none, none, none, none, none, none⟩

/-- Update the carry with the values present in row `r`. -/
def carryOf (c : Carry) (r : Row) : Carry :=
  ⟨fstep c.iso_code r.iso_code,
   fstep c.total_cases r.total_cases,
   fstep c.new_cases r.new_cases,
   fstep c.total_deaths r.total_deaths,
   fstep c.new_deaths r.new_deaths,
   fstep c.total_vaccinations r.total_vaccinations,
   fstep c.people_vaccinated_per_hundred r.people_vaccinated_per_hundred⟩

/-- Overwrite the fillable columns of `r` with the carry (which already
holds `r`'s own values where they are present). -/
def applyCarry (c : Carry) (r : Row) : Row :=
  { r with
    iso_code := c.iso_code,
    total_cases := c.total_cases,
    new_cases := c.new_cases,
    total_deaths := c.total_deaths,
    new_deaths := c.new_deaths,
    total_vaccinations := c.total_vaccinations,
    people_vaccinated_per_hundred := c.people_vaccinated_per_hundred }

/-- Forward fill over a list of rows, threading the carry. -/
def ffillAux (c : Carry) : List Row → List Row
  | [] => []
  | r :: rs => applyCarry (carryOf c r) r :: ffillAux (carryOf c r) rs

/-- `g.fillna(method='ffill')` on one group `g`. -/
def ffillRows (g : List Row) : List Row := ffillAux emptyCarry g

/-- The group keys of `df.groupby('location')` (pandas sorts them; on an
already sorted frame deduplication yields them in ascending order). -/
def groupKeys (rows : List Row) : List String :=
  (rows.map (·.location)).dedup

/-- The group of `df.groupby('location')` for key `l`: the rows of that
location, in frame order. -/
def groupOf (rows : List Row) (l : String) : List Row :=
  rows.filter fun r => r.location = l

/-- The frame after `dropna` and `sort_values(['location', 'date'])`. -/
def sortedRows (raw : List RawRow) : List Row :=
  sortRows (dropnaRows raw)

/-- The cleaning block of the script: subset/dropna, sort by location
then date, and group-by-location forward fill
(`df.groupby('location').apply(lambda g: g.fillna(method='ffill'))`). -/
def cleanRows (raw : List RawRow) : List Row :=
  (groupKeys (sortedRows raw)).flatMap fun l =>
    ffillRows (groupOf (sortedRows raw) l)

/-- The configured country filter of section 3. -/
def countries : List String := ["United States", "India", "Brazil"]

/-- `pd.to_datetime('2021-01-01')` in the yyyymmdd date encoding. -/
def start_date : Nat := 20210101

/-- `df['date'].max()` (0 on an empty frame, where the filter is vacuous). -/
def maxDate (rows : List Row) : Nat :=
  (rows.map (·.date)).foldr max 0

/-- The boolean mask of section 3. -/
def maskRow (rows : List Row) (r : Row) : Bool :=
  decide (r.location ∈ countries) && decide (start_date ≤ r.date)
    && decide (r.date ≤ maxDate rows)

/-- `df_filt = df.loc[mask]`. -/
def filtRows (rows : List Row) : List Row :=
  rows.filter (maskRow rows)

/-- A loaded dataframe: the parsed rows together with whether the
`total_vaccinations` column was present in the CSV at all (when it is
absent the subset step drops it, and the vaccination chart guards fire). -/
structure DF where
  hasVax : Bool
  rows : List RawRow
deriving Repr

/-- The state of the working directory that `load_data` touches: the
content of `owid-covid-data.csv`, when the file exists. -/
structure FileSystem where
  localFile : Option String
deriving DecidableEq, Repr

/-- The error `load_data` raises when both sources are unavailable. -/
inductive LoadError where
  | fileNotFound (msg : String)
deriving DecidableEq, Repr

/-- The effect model of `load_data`: `remote` is the body of a
successful `requests.get` (`none` when the download fails for any
reason), `parse` stands for `pd.read_csv`, and the returned filesystem
reflects the write of the downloaded bytes.  On success the function
saves the content to `owid-covid-data.csv` and parses that saved file;
on failure it parses the pre-existing local file if it exists, else it
raises `FileNotFoundError`. -/
def load_data (parse : String → DF) (remote : Option String)
    (fs : FileSystem) : Except LoadError (FileSystem × DF) :=
  match remote with
  | some content =>
      let fs2 : FileSystem := { localFile := some content }
      Except.ok (fs2, parse content)
  | none =>
      match fs.localFile with
      | some content => Except.ok (fs, parse content)
      | none =>
          Except.error (LoadError.fileNotFound
            "Local file owid-covid-data.csv not found.")

/-- The charts the pipeline can draw. -/
inductive Chart where
  | timeSeriesCases
  | timeSeriesDeaths
  | dualAxisVax
  | deathVsInfection
  | choropleth
deriving DecidableEq, Repr

/-- The charts of the single sequential pass, in program order: the two
time series, the dual-axis vaccination chart only when the
`total_vaccinations` column is present, then the choropleth map. -/
def initialCharts (hasVax : Bool) : List Chart :=
  [Chart.timeSeriesCases, Chart.timeSeriesDeaths]
    ++ (if hasVax then [Chart.dualAxisVax] else []) ++ [Chart.choropleth]

/-- What one iteration of `navigation_menu` does in response to an
input line. -/
inductive MenuAction where
  | showCases
  | showDeaths
  | showVax
  | showDeathVsInfection
  | invalidChoice
  | exitMenu
deriving DecidableEq, Repr

/-- The `if/elif/else` chain of `navigation_menu` for one input: note
that choice `'3'` shows the vaccination chart only when the
`total_vaccinations` column is present, and falls to the invalid branch
otherwise. -/
def menuStep (hasVax : Bool) (choice : String) : MenuAction :=
  if choice == "1" then MenuAction.showCases
  else if choice == "2" then MenuAction.showDeaths
  else if choice == "3" && hasVax then MenuAction.showVax
  else if choice == "4" then MenuAction.showDeathVsInfection
  else if choice == "5" then MenuAction.exitMenu
  else MenuAction.invalidChoice

/-- The `while True` loop of `navigation_menu`, run against a finite
script of input lines: `some trace` when the loop terminates (it
reached an input `"5"`), `none` when it exhausts the script still
waiting for more input (the loop never terminates on other inputs). -/
def runMenu (hasVax : Bool) : List String → Option (List MenuAction)
  | [] => none
  | c :: cs =>
      if c == "5" then some [MenuAction.exitMenu]
      else
        match runMenu hasVax cs with
        | some t => some (menuStep hasVax c :: t)
        | none => none

/-- `g['date'].max()` within one group. -/
def maxDateOf (g : List Row) : Nat :=
  (g.map (·.date)).foldr max 0

/-- `latest = df.groupby('location').apply(lambda g: g[g['date'] == g['date'].max()])`:
for each location, the rows carrying that location's maximal date. -/
def latestTable (rows : List Row) : List Row :=
  (groupKeys rows).flatMap fun l =>
    (groupOf rows l).filter fun r => r.date = maxDateOf (groupOf rows l)

/-- `latest['total_deaths'] / latest['total_cases']`: NaN operands
propagate (the zero-divisor case is treated in the division claim). -/
def deathRate (r : Row) : Option Rat :=
  match r.total_deaths, r.total_cases with
  | some d, some c => some (d / c)
  | _, _ => none

/-- Descending comparison on `total_cases` used by
`sort_values('total_cases', ascending=False)`; missing values sort
last, as pandas places NaN. -/
def casesDesc (a b : Row) : Prop :=
  match a.total_cases, b.total_cases with
  | some x, some y => y ≤ x
  | some _, none => True
  | none, some _ => False
  | none, none => True

instance : DecidableRel casesDesc := fun a b => by
  unfold casesDesc
  rcases a.total_cases with _ | x <;> rcases b.total_cases with _ | y <;>
    simp <;> infer_instance

instance : IsTotal Row casesDesc where
  total a b := by
    unfold casesDesc
    rcases a.total_cases with _ | x <;> rcases b.total_cases with _ | y <;> simp
    exact le_total y x

instance : IsTrans Row casesDesc where
  trans a b c hab hbc := by
    unfold casesDesc at *
    rcases ha : a.total_cases with _ | x <;> rcases hb : b.total_cases with _ | y <;>
      rcases hc : c.total_cases with _ | z <;> simp_all
    exact hbc.trans hab

/-- `latest.sort_values('total_cases', ascending=False).head(5)`. -/
def top5 (rows : List Row) : List Row :=
  (List.insertionSort casesDesc (latestTable rows)).take 5

/-- One printed line of the textual summary:
`top5[['location', 'total_cases', 'total_deaths', 'death_rate']]`. -/
structure SummaryRow where
  location : String
  total_cases : Option Rat
  total_deaths : Option Rat
  death_rate : Option Rat
deriving DecidableEq, Repr

/-- The textual summary printed by the insights block. -/
def printedSummary (rows : List Row) : List SummaryRow :=
  (top5 rows).map fun r =>
    ⟨r.location, r.total_cases, r.total_deaths, deathRate r⟩

/-- A row of the `naturalearth_lowres` world table: its ISO-3 code and
the geometry/attributes it carries (abstracted to a name). -/
structure GeoRow where
  iso_a3 : String
  name : String
deriving DecidableEq, Repr

/-- A row of `map_df`: the world row together with the statistics
columns brought in by the merge (`none` across the board when the
region found no match). -/
structure MapRow where
  region : GeoRow
  stats : Option Row
deriving DecidableEq, Repr

/-- The rows of `latest` whose `iso_code` equals the region's `iso_a3`
(a NaN `iso_code` matches nothing, as in pandas). -/
def matchesFor (latest : List Row) (w : GeoRow) : List Row :=
  latest.filter fun r => r.iso_code == some w.iso_a3

/-- The rows a left merge emits for one left row `w`: one row per
match, or a single all-NaN-stats row when there is no match. -/
def mergeRowsFor (latest : List Row) (w : GeoRow) : List MapRow :=
  match matchesFor latest w with
  | [] => [⟨w, none⟩]
  | ms => ms.map fun r => ⟨w, some r⟩

/-- `map_df = world.merge(latest.reset_index(), left_on='iso_a3',
right_on='iso_code', how='left')`. -/
def mapDf (world : List GeoRow) (latest : List Row) : List MapRow :=
  world.flatMap (mergeRowsFor latest)

/-- The value `map_df.plot(column='total_cases', ...)` shades a merged
row by. -/
def choroplethShade (x : MapRow) : Option Rat :=
  x.stats.bind (·.total_cases)

/-- The complete observable output of one run of the script. -/
structure RunOutput where
  cleaned : List Row
  filtered : List Row
  charts : List Chart
  mapRows : List MapRow
  summary : List SummaryRow
  menuTrace : List MenuAction
deriving Repr

/-- Big-step semantics of the `navigation_menu` loop as a relation
between the input script and the trace of actions it performs before
exiting. -/
inductive MenuTrace (hasVax : Bool) : List String → List MenuAction → Prop
  | exit (cs : List String) : MenuTrace hasVax ("5" :: cs) [MenuAction.exitMenu]
  | step (c : String) (cs : List String) (t : List MenuAction) :
      c ≠ "5" → MenuTrace hasVax cs t →
      MenuTrace hasVax (c :: cs) (menuStep hasVax c :: t)

/-- Big-step semantics of the whole script after loading: the single
sequential pass (clean, filter, charts, map, summary) followed by the
menu loop.  The output is a function of the loaded dataframe and the
menu inputs alone: no other state enters. -/
inductive PipelineRun (world : List GeoRow) :
    DF → List String → RunOutput → Prop
  | mk (df : DF) (inputs : List String) (t : List MenuAction) :
      MenuTrace df.hasVax inputs t →
      PipelineRun world df inputs
        ⟨cleanRows df.rows,
         filtRows (cleanRows df.rows),
         initialCharts df.hasVax,
         mapDf world (latestTable (cleanRows df.rows)),
         printedSummary (cleanRows df.rows),
         t⟩

/-! Concrete example data used to instantiate theorems with hypotheses. -/

/-- Example raw row: United States, complete. -/
def rawA : RawRow :=
  ⟨some "USA", some "United States", some 20210102, some 100, some 5,
   some 10, some 1, some 50, some 2⟩

/-- Example raw row: India, with a missing `total_deaths`. -/
def rawB : RawRow :=
  ⟨some "IND", some "India", some 20210103, some 60, some 2,
   none, some 1, some 40, some 3⟩

/-- Example raw row: dropped by `dropna` (no location). -/
def rawC : RawRow :=
  ⟨some "???", none, some 20210101, some 7, some 7, some 7, some 7,
   some 7, some 7⟩

/-- Example raw row: India, earlier date, with `total_deaths` present. -/
def rawD : RawRow :=
  ⟨some "IND", some "India", some 20210101, some 50, some 1,
   some 4, some 1, some 30, some 1⟩

/-- Example raw dataset. -/
def rawEx : List RawRow := [rawA, rawB, rawC, rawD]

/-- Example cleaned row for the United States. -/
def rowA : Row :=
  ⟨some "USA", "United States", 20210102, some 100, some 5, some 10,
   some 1, some 50, some 2⟩

/-- Example cleaned row for India. -/
def rowB : Row :=
  ⟨some "IND", "India", 20210103, some 60, some 2, some 6, some 1,
   some 40, some 3⟩

/-- Example cleaned dataset. -/
def rowsEx : List Row := [rowA, rowB]

/-- Example world table. -/
def worldEx : List GeoRow := [⟨"USA", "United States of America"⟩, ⟨"FRA", "France"⟩]

/-- Example loaded dataframe. -/
def dfEx : DF := ⟨true, rawEx⟩

/-- The run output of the example pipeline on inputs `["5"]`. -/
def outEx : RunOutput :=
  ⟨cleanRows dfEx.rows, filtRows (cleanRows dfEx.rows), initialCharts dfEx.hasVax,
   mapDf worldEx (latestTable (cleanRows dfEx.rows)),
   printedSummary (cleanRows dfEx.rows), [MenuAction.exitMenu]⟩

/-! Helper lemmas. -/

/-- Unfolding one non-exit iteration of the menu loop. -/
theorem runMenu_cons_ne (hasVax : Bool) (c : String) (cs : List String)
    (h : c ≠ "5") :
    runMenu hasVax (c :: cs)
      = (runMenu hasVax cs).map (menuStep hasVax c :: ·) := by
  have hb : (c == "5") = false := by simpa using h
  rw [runMenu, hb]
  cases hr : runMenu hasVax cs <;> simp

/-- The menu loop terminates exactly when the input script contains `"5"`. -/
theorem runMenu_isSome_iff (hasVax : Bool) :
    ∀ inputs : List String, (runMenu hasVax inputs).isSome ↔ "5" ∈ inputs := by
  intro inputs
  induction inputs with
  | nil => simp [runMenu]
  | cons c cs ih =>
      by_cases h : c = "5"
      · subst h; simp [runMenu]
      · have h5 : ¬ ("5" = c) := fun e => h e.symm
        have hmap : ((runMenu hasVax cs).map (menuStep hasVax c :: ·)).isSome
            = (runMenu hasVax cs).isSome := by
          cases runMenu hasVax cs <;> rfl
        rw [runMenu_cons_ne hasVax c cs h, List.mem_cons, hmap]
        simp [h5, ih]

/-- Inputs matching none of the five menu entries take the invalid
branch. -/
theorem menuStep_invalid (hasVax : Bool) (c : String)
    (hc : c ∉ (["1", "2", "3", "4", "5"] : List String)) :
    menuStep hasVax c = MenuAction.invalidChoice := by
  simp only [List.mem_cons, List.not_mem_nil, or_false, not_or] at hc
  obtain ⟨h1, h2, h3, h4, h5⟩ := hc
  simp [menuStep, h1, h2, h3, h4, h5]

/-! Forward-fill lemmas. -/

theorem ffillO_getElem? {α : Type} :
    ∀ (xs : List (Option α)) (c : Option α) (i : Nat), i < xs.length →
      (ffillO c xs)[i]? = some (lastFill c (xs.take (i + 1))) := by
  intro xs
  induction xs with
  | nil => intro c i h; exact absurd h (Nat.not_lt_zero i)
  | cons x xs ih =>
      intro c i h
      cases i with
      | zero => simp [ffillO, lastFill]
      | succ n =>
          simp only [ffillO, List.getElem?_cons_succ]
          rw [ih (fstep c x) n (Nat.lt_of_succ_lt_succ h)]
          simp [lastFill, List.take_succ_cons]

/-- Forward fill acts columnwise: any column projection commuting with
the carry operations transports `ffillAux` to `ffillO`. -/
theorem ffillAux_map_col {α : Type} (proj : Row → Option α) (cp : Carry → Option α)
    (h1 : ∀ c r, cp (carryOf c r) = fstep (cp c) (proj r))
    (h2 : ∀ c r, proj (applyCarry c r) = cp c) :
    ∀ (g : List Row) (c : Carry),
      (ffillAux c g).map proj = ffillO (cp c) (g.map proj) := by
  intro g
  induction g with
  | nil => intro c; rfl
  | cons r rs ih =>
      intro c
      show proj (applyCarry (carryOf c r) r) :: (ffillAux (carryOf c r) rs).map proj
        = fstep (cp c) (proj r) :: ffillO (fstep (cp c) (proj r)) (rs.map proj)
      rw [h2, ih, h1]

/-- Forward fill never changes the sort key (location and date). -/
theorem ffillAux_map_key :
    ∀ (g : List Row) (c : Carry), (ffillAux c g).map key = g.map key := by
  intro g
  induction g with
  | nil => intro c; rfl
  | cons r rs ih =>
      intro c
      show key (applyCarry (carryOf c r) r) :: (ffillAux (carryOf c r) rs).map key
        = key r :: rs.map key
      rw [ih]
      rfl

/-- Forward fill never changes the location column. -/
theorem ffillAux_map_loc :
    ∀ (g : List Row) (c : Carry),
      (ffillAux c g).map (·.location) = g.map (·.location) := by
  intro g
  induction g with
  | nil => intro c; rfl
  | cons r rs ih =>
      intro c
      show (applyCarry (carryOf c r) r).location
            :: (ffillAux (carryOf c r) rs).map (·.location)
        = r.location :: rs.map (·.location)
      rw [ih]
      rfl

/-- Every row of a location's group carries that location. -/
theorem groupOf_location (rows : List Row) (l : String) :
    ∀ r ∈ groupOf rows l, r.location = l := by
  intro r hr
  exact of_decide_eq_true (List.mem_filter.mp hr).2

/-- Forward-filled group rows still carry the group's location: values
computed for one location stay attributed to it. -/
theorem ffillRows_groupOf_location (rows : List Row) (l : String) :
    ∀ r ∈ ffillRows (groupOf rows l), r.location = l := by
  intro r hr
  have hm : r.location ∈ (ffillRows (groupOf rows l)).map (·.location) :=
    List.mem_map_of_mem _ hr
  simp only [ffillRows] at hm
  rw [ffillAux_map_loc] at hm
  obtain ⟨q, hq, he⟩ := List.mem_map.mp hm
  rw [← he]
  exact groupOf_location rows l q hq

/-- Row order is determined by the sort keys. -/
theorem pairwise_rowLE_iff (x : List Row) :
    List.Pairwise rowLE x ↔ List.Pairwise keyLE (x.map key) := by
  rw [List.pairwise_map]
  exact ⟨fun h => h.imp fun hab => hab, fun h => h.imp fun hab => hab⟩

/-- Forward fill preserves sortedness (it keeps every key in place). -/
theorem pairwise_ffillRows (g : List Row) (h : List.Pairwise rowLE g) :
    List.Pairwise rowLE (ffillRows g) := by
  rw [pairwise_rowLE_iff] at h ⊢
  simp only [ffillRows]
  rw [ffillAux_map_key]
  exact h

/-- On a frame sorted by location then date, the group keys come out
strictly ascending. -/
theorem groupKeys_pairwise (rows : List Row) (h : List.Pairwise rowLE rows) :
    List.Pairwise strLt (groupKeys rows) := by
  have hle : List.Pairwise (fun a b : String => strLt a b ∨ a = b)
      (rows.map (·.location)) := by
    rw [List.pairwise_map]
    refine h.imp ?_
    intro a b hab
    have hab2 : strLt a.location b.location
        ∨ (a.location = b.location ∧ a.date ≤ b.date) := hab
    rcases hab2 with hlt | ⟨heq, _⟩
    · exact Or.inl hlt
    · exact Or.inr heq
  have hd := List.Pairwise.sublist (List.dedup_sublist (rows.map (·.location))) hle
  have hnd : List.Pairwise (fun a b : String => a ≠ b)
      (rows.map (·.location)).dedup := List.nodup_dedup _
  exact (hd.and hnd).imp fun hab => hab.1.resolve_right hab.2

/-- The cleaned frame is sorted by location, then date. -/
theorem cleanRows_sorted (raw : List RawRow) :
    List.Pairwise rowLE (cleanRows raw) := by
  have hs : List.Pairwise rowLE (sortedRows raw) :=
    List.sorted_insertionSort rowLE (dropnaRows raw)
  simp only [cleanRows]
  rw [List.flatMap_def, List.pairwise_flatten]
  constructor
  · intro blk hblk
    obtain ⟨l, _, rfl⟩ := List.mem_map.mp hblk
    exact pairwise_ffillRows _ (List.Pairwise.sublist (List.filter_sublist _) hs)
  · rw [List.pairwise_map]
    refine (groupKeys_pairwise _ hs).imp ?_
    intro l1 l2 h12 x hx y hy
    have hx1 : x.location = l1 := ffillRows_groupOf_location _ _ x hx
    have hy2 : y.location = l2 := ffillRows_groupOf_location _ _ y hy
    rw [← hx1, ← hy2] at h12
    exact Or.inl h12

/-- Every cleaned row descends from a raw row with non-null location
and date. -/
theorem cleanRows_source (raw : List RawRow) :
    ∀ r ∈ cleanRows raw, ∃ r0 ∈ raw,
      r0.location = some r.location ∧ r0.date = some r.date := by
  intro r hr
  obtain ⟨l, _, hrf⟩ := List.mem_flatMap.mp hr
  have hk : key r ∈ (ffillRows (groupOf (sortedRows raw) l)).map key :=
    List.mem_map_of_mem key hrf
  simp only [ffillRows] at hk
  rw [ffillAux_map_key] at hk
  obtain ⟨q, hq, hkey⟩ := List.mem_map.mp hk
  have hqs : q ∈ sortedRows raw := (List.mem_filter.mp hq).1
  have hqd : q ∈ dropnaRows raw :=
    (List.perm_insertionSort rowLE (dropnaRows raw)).subset hqs
  obtain ⟨r0, hr0, hparse⟩ := List.mem_filterMap.mp hqd
  rcases hL : r0.location with _ | l0 <;> rcases hD : r0.date with _ | d0 <;>
    rw [hL, hD] at hparse
  · exact absurd hparse (by simp)
  · exact absurd hparse (by simp)
  · exact absurd hparse (by simp)
  · have hq2 := Option.some.inj hparse
    rw [← hq2] at hkey
    have hkey2 : (l0, d0) = (r.location, r.date) := hkey
    rw [Prod.mk.injEq] at hkey2
    exact ⟨r0, hr0, by rw [hL, hkey2.1], by rw [hD, hkey2.2]⟩

/-! Claim theorems. -/

/-- C1.  Cleaning: every retained row descends from a raw row whose
date and location are non-null; the cleaned frame is ordered by
location and then by date; it is the concatenation of the per-location
groups of the sorted frame, each forward-filled in isolation (rows keep
their group's location, so values never leak across locations); and
within a group the `i`-th value of each metric column is the last
non-null entry among the first `i + 1` group values of that column
started from an empty carry — so a missing value is replaced by the
most recent earlier non-null value of the same location, and leading
missing values stay missing. -/
theorem C1_cleaning_spec (raw : List RawRow) :
    (∀ r ∈ cleanRows raw, ∃ r0 ∈ raw,
        r0.location = some r.location ∧ r0.date = some r.date) ∧
    List.Sorted rowLE (cleanRows raw) ∧
    cleanRows raw = (groupKeys (sortedRows raw)).flatMap
        (fun l => ffillRows (groupOf (sortedRows raw) l)) ∧
    (∀ l ∈ groupKeys (sortedRows raw),
        ∀ r ∈ ffillRows (groupOf (sortedRows raw) l), r.location = l) ∧
    ∀ l ∈ groupKeys (sortedRows raw), ∀ i,
      i < (groupOf (sortedRows raw) l).length →
        (((ffillRows (groupOf (sortedRows raw) l)).map (·.total_cases))[i]?
          = some (lastFill none
              (((groupOf (sortedRows raw) l).map (·.total_cases)).take (i + 1)))) ∧
        (((ffillRows (groupOf (sortedRows raw) l)).map (·.new_cases))[i]?
          = some (lastFill none
              (((groupOf (sortedRows raw) l).map (·.new_cases)).take (i + 1)))) ∧
        (((ffillRows (groupOf (sortedRows raw) l)).map (·.total_deaths))[i]?
          = some (lastFill none
              (((groupOf (sortedRows raw) l).map (·.total_deaths)).take (i + 1)))) ∧
        (((ffillRows (groupOf (sortedRows raw) l)).map (·.new_deaths))[i]?
          = some (lastFill none
              (((groupOf (sortedRows raw) l).map (·.new_deaths)).take (i + 1)))) ∧
        (((ffillRows (groupOf (sortedRows raw) l)).map (·.total_vaccinations))[i]?
          = some (lastFill none
              (((groupOf (sortedRows raw) l).map (·.total_vaccinations)).take (i + 1)))) ∧
        (((ffillRows (groupOf (sortedRows raw) l)).map
              (·.people_vaccinated_per_hundred))[i]?
          = some (lastFill none
              (((groupOf (sortedRows raw) l).map
                  (·.people_vaccinated_per_hundred)).take (i + 1)))) := by
  refine ⟨cleanRows_source raw, cleanRows_sorted raw, rfl, ?_, ?_⟩
  · intro l _ r hr
    exact ffillRows_groupOf_location _ _ r hr
  · intro l _ i hi
    have hlen : i < ((groupOf (sortedRows raw) l).map (·.total_cases)).length := by
      rw [List.length_map]; exact hi
    refine ⟨?_, ?_, ?_, ?_, ?_, ?_⟩
    · simp only [ffillRows]
      rw [ffillAux_map_col (fun r => r.total_cases) (fun c => c.total_cases)
        (fun c r => rfl) (fun c r => rfl)]
      exact ffillO_getElem? _ _ i (by rw [List.length_map]; exact hi)
    · simp only [ffillRows]
      rw [ffillAux_map_col (fun r => r.new_cases) (fun c => c.new_cases)
        (fun c r => rfl) (fun c r => rfl)]
      exact ffillO_getElem? _ _ i (by rw [List.length_map]; exact hi)
    · simp only [ffillRows]
      rw [ffillAux_map_col (fun r => r.total_deaths) (fun c => c.total_deaths)
        (fun c r => rfl) (fun c r => rfl)]
      exact ffillO_getElem? _ _ i (by rw [List.length_map]; exact hi)
    · simp only [ffillRows]
      rw [ffillAux_map_col (fun r => r.new_deaths) (fun c => c.new_deaths)
        (fun c r => rfl) (fun c r => rfl)]
      exact ffillO_getElem? _ _ i (by rw [List.length_map]; exact hi)
    · simp only [ffillRows]
      rw [ffillAux_map_col (fun r => r.total_vaccinations)
        (fun c => c.total_vaccinations) (fun c r => rfl) (fun c r => rfl)]
      exact ffillO_getElem? _ _ i (by rw [List.length_map]; exact hi)
    · simp only [ffillRows]
      rw [ffillAux_map_col (fun r => r.people_vaccinated_per_hundred)
        (fun c => c.people_vaccinated_per_hundred)
        (fun c r => rfl) (fun c r => rfl)]
      exact ffillO_getElem? _ _ i (by rw [List.length_map]; exact hi)

/-- C1 witness: on the example dataset, the filled India row descends
from a raw row, the cleaned frame is sorted, and the second
`total_deaths` value of the India group is the forward fill of the
earlier non-null value `4`. -/
theorem C1_cleaning_spec_witness :
    (∃ r0 ∈ rawEx, r0.location = some "India" ∧ r0.date = some (20210103 : Nat)) ∧
    List.Sorted rowLE (cleanRows rawEx) ∧
    (((ffillRows (groupOf (sortedRows rawEx) "India")).map (·.total_deaths))[1]?
      = some (lastFill none
          (((groupOf (sortedRows rawEx) "India").map (·.total_deaths)).take 2))) ∧
    lastFill none
        (((groupOf (sortedRows rawEx) "India").map (·.total_deaths)).take 2)
      = some 4 := by
  have h := C1_cleaning_spec rawEx
  refine ⟨?_, h.2.1, ?_, by decide⟩
  · have hmem : (⟨some "IND", "India", 20210103, some 60, some 2, some 4,
        some 1, some 40, some 3⟩ : Row) ∈ cleanRows rawEx := by decide
    exact h.1 _ hmem
  · have hl : "India" ∈ groupKeys (sortedRows rawEx) := by decide
    have hi : 1 < (groupOf (sortedRows rawEx) "India").length := by decide
    exact (h.2.2.2.2 "India" hl 1 hi).2.2.1

/-- C2.  Filtering: a row belongs to `df_filt` exactly when it is a
cleaned row whose location is one of the three configured countries and
whose date lies between 2021-01-01 and the maximum date of the cleaned
dataset, inclusive. -/
theorem C2_filter_spec (raw : List RawRow) (r : Row) :
    r ∈ filtRows (cleanRows raw) ↔
      r ∈ cleanRows raw ∧ r.location ∈ countries ∧
        start_date ≤ r.date ∧ r.date ≤ maxDate (cleanRows raw) := by
  unfold filtRows maskRow
  rw [List.mem_filter]
  simp [and_assoc]

/-- C3.  Loading: `load_data` returns the parse of the downloaded
content when the download succeeds; on download failure it returns the
parse of the existing local file; and it raises `FileNotFoundError`
exactly when the download fails and no local file exists. -/
theorem C3_load_data_spec (parse : String → DF) (remote : Option String)
    (fs : FileSystem) :
    (∀ content, remote = some content →
        load_data parse remote fs
          = Except.ok (⟨some content⟩, parse content)) ∧
    (remote = none → ∀ l, fs.localFile = some l →
        load_data parse remote fs = Except.ok (fs, parse l)) ∧
    ((∃ e, load_data parse remote fs = Except.error e) ↔
        remote = none ∧ fs.localFile = none) := by
  refine ⟨?_, ?_, ?_⟩
  · intro content h; subst h; rfl
  · intro h l hl; subst h; simp [load_data, hl]
  · constructor
    · rintro ⟨e, he⟩
      cases hr : remote with
      | some content => rw [hr] at he; simp [load_data] at he
      | none =>
          cases hl : fs.localFile with
          | some l => rw [hr] at he; simp [load_data, hl] at he
          | none => exact ⟨rfl, rfl⟩
    · rintro ⟨hr, hl⟩
      subst hr
      exact ⟨LoadError.fileNotFound "Local file owid-covid-data.csv not found.",
        by simp [load_data, hl]⟩

/-- C3 witness: on a successful download the parsed remote content is
returned, and with no download and no local file an error is raised. -/
theorem C3_load_data_spec_witness :
    load_data (fun _ => ⟨true, []⟩) (some "csv") ⟨some "old"⟩
      = Except.ok (⟨some "csv"⟩, ⟨true, []⟩) ∧
    (∃ e, load_data (fun _ => ⟨true, []⟩) none ⟨none⟩ = Except.error e) := by
  refine ⟨(C3_load_data_spec _ (some "csv") ⟨some "old"⟩).1 "csv" rfl, ?_⟩
  exact (C3_load_data_spec (fun _ => ⟨true, []⟩) none ⟨none⟩).2.2.mpr ⟨rfl, rfl⟩

/-- C8.  On every successful remote load, `load_data` writes the
downloaded bytes to `owid-covid-data.csv` (overwriting any pre-existing
content of that file) and returns the parse of that saved content. -/
theorem C8_load_data_overwrites (parse : String → DF) (content : String)
    (fs : FileSystem) :
    load_data parse (some content) fs
      = Except.ok ({ localFile := some content }, parse content) := rfl

/-- C4.  The menu loop terminates exactly on input `"5"` (on a finite
input script it returns a trace iff the script contains `"5"`, and any
other input leads back to the prompt); inputs `"1"`, `"2"`, `"4"`
re-display their charts, `"3"` re-displays the vaccination chart when
that chart exists (the `total_vaccinations` column is present), and any
input outside the five choices takes the invalid branch. -/
theorem C4_menu_loop_spec (hasVax : Bool) (inputs : List String) :
    ((runMenu hasVax inputs).isSome ↔ "5" ∈ inputs) ∧
    (∀ c cs, c ≠ "5" →
        runMenu hasVax (c :: cs)
          = (runMenu hasVax cs).map (menuStep hasVax c :: ·)) ∧
    runMenu hasVax ("5" :: inputs) = some [MenuAction.exitMenu] ∧
    menuStep hasVax "1" = MenuAction.showCases ∧
    menuStep hasVax "2" = MenuAction.showDeaths ∧
    (hasVax = true → menuStep hasVax "3" = MenuAction.showVax) ∧
    menuStep hasVax "4" = MenuAction.showDeathVsInfection ∧
    (∀ c, c ∉ (["1", "2", "3", "4", "5"] : List String) →
        menuStep hasVax c = MenuAction.invalidChoice) := by
  refine ⟨runMenu_isSome_iff hasVax inputs, runMenu_cons_ne hasVax, rfl,
    rfl, rfl, ?_, rfl, menuStep_invalid hasVax⟩
  intro h; subst h; rfl

/-- C4 witness: with the vaccination column present, a script whose
only `"5"` is at the end loops through an invalid input and a chart
input before exiting. -/
theorem C4_menu_loop_spec_witness :
    menuStep true "3" = MenuAction.showVax ∧
    menuStep true "9" = MenuAction.invalidChoice ∧
    runMenu true ["9", "5"]
      = some [MenuAction.invalidChoice, MenuAction.exitMenu] ∧
    runMenu true ["9"] = none := by
  have h := C4_menu_loop_spec true ["9"]
  refine ⟨h.2.2.2.2.2.1 rfl, h.2.2.2.2.2.2.2 "9" (by decide), ?_, ?_⟩
  · have h59 := (C4_menu_loop_spec true ["5"]).2.1 "9" ["5"] (by decide)
    rw [h59]
    rfl
  · cases hr : runMenu true ["9"] with
    | none => rfl
    | some t =>
        exfalso
        have : ("5" : String) ∈ ["9"] := h.1.mp (by simp [hr])
        simp at this

/-- C9.  When the `total_vaccinations` column is absent, menu input
`"3"` takes the invalid branch (an invalid-choice message, then back to
the prompt) instead of the vaccination chart, and the dual-axis chart
is skipped in the initial pass. -/
theorem C9_no_vax_column (cs : List String) :
    menuStep false "3" = MenuAction.invalidChoice ∧
    runMenu false ("3" :: cs)
      = (runMenu false cs).map (MenuAction.invalidChoice :: ·) ∧
    Chart.dualAxisVax ∉ initialCharts false ∧
    Chart.dualAxisVax ∈ initialCharts true := by
  refine ⟨rfl, ?_, by decide, by decide⟩
  rw [runMenu_cons_ne false "3" cs (by decide)]
  rfl

/-- C5.  Textual summary: the printed summary is the five
largest-`total_cases` rows of the latest-per-location table, in
descending order of `total_cases`, each line carrying a `death_rate`
equal to that row's `total_deaths` divided by its `total_cases`. -/
theorem C5_summary_spec (rows : List Row) :
    (top5 rows ++ (List.insertionSort casesDesc (latestTable rows)).drop 5).Perm
        (latestTable rows) ∧
    List.Sorted casesDesc (top5 rows) ∧
    (top5 rows).length = min 5 (latestTable rows).length ∧
    (∀ r ∈ top5 rows, r ∈ latestTable rows) ∧
    (∀ r ∈ top5 rows,
        ∀ q ∈ (List.insertionSort casesDesc (latestTable rows)).drop 5,
          casesDesc r q) ∧
    printedSummary rows
      = (top5 rows).map
          (fun r => ⟨r.location, r.total_cases, r.total_deaths, deathRate r⟩) ∧
    ∀ s ∈ printedSummary rows, ∃ r, r ∈ top5 rows ∧
      s.location = r.location ∧ s.total_cases = r.total_cases ∧
      s.total_deaths = r.total_deaths ∧ s.death_rate = deathRate r ∧
      ∀ d c, r.total_deaths = some d → r.total_cases = some c →
        s.death_rate = some (d / c) := by
  have hperm := List.perm_insertionSort casesDesc (latestTable rows)
  have hsorted := List.sorted_insertionSort casesDesc (latestTable rows)
  have hsplit := List.take_append_drop 5 (List.insertionSort casesDesc (latestTable rows))
  refine ⟨?_, ?_, ?_, ?_, ?_, rfl, ?_⟩
  · show ((List.insertionSort casesDesc (latestTable rows)).take 5 ++ _).Perm _
    rw [hsplit]; exact hperm
  · exact List.Pairwise.sublist (List.take_sublist 5 _) hsorted
  · show ((List.insertionSort casesDesc (latestTable rows)).take 5).length = _
    rw [List.length_take, hperm.length_eq]
  · intro r hr
    exact hperm.mem_iff.mp (List.take_subset 5 _ hr)
  · intro r hr q hq
    have := List.pairwise_append.mp (hsplit ▸ hsorted)
    exact this.2.2 r hr q hq
  · intro s hs
    obtain ⟨r, hr, rfl⟩ := List.mem_map.mp hs
    refine ⟨r, hr, rfl, rfl, rfl, rfl, ?_⟩
    intro d c hd hc
    simp [deathRate, hd, hc]

/-- C5 witness: on the example dataset the United States row is in the
top five, and its printed death rate is its deaths divided by its
cases. -/
theorem C5_summary_spec_witness :
    rowA ∈ latestTable rowsEx ∧
    (⟨"United States", some 100, some 10, deathRate rowA⟩ : SummaryRow).death_rate
      = some ((10 : Rat) / 100) := by
  have h := C5_summary_spec rowsEx
  have hmem : rowA ∈ top5 rowsEx := by decide
  have hs : (⟨"United States", some 100, some 10, deathRate rowA⟩ : SummaryRow)
      ∈ printedSummary rowsEx :=
    List.mem_map.mpr ⟨rowA, hmem, rfl⟩
  obtain ⟨r, _, _, hc, hd, _, himp⟩ := h.2.2.2.2.2.2 _ hs
  exact ⟨h.2.2.2.1 rowA hmem, himp 10 100 (by rw [← hd]) (by rw [← hc])⟩

/-- The merge processes the world rows in order. -/
theorem mapDf_cons (v : GeoRow) (ws : List GeoRow) (latest : List Row) :
    mapDf (v :: ws) latest = mergeRowsFor latest v ++ mapDf ws latest := by
  simp [mapDf]

/-- Every row a left merge emits for the left row `w` carries `w` as
its region. -/
theorem mergeRowsFor_region (latest : List Row) (w : GeoRow) :
    ∀ x ∈ mergeRowsFor latest w, x.region = w := by
  intro x hx
  rw [mergeRowsFor] at hx
  rcases hm : matchesFor latest w with _ | ⟨r, rs⟩ <;> rw [hm] at hx
  · simp only [List.mem_singleton] at hx
    subst hx; rfl
  · obtain ⟨q, _, rfl⟩ := List.mem_map.mp hx
    rfl

/-- The statistics a merged row carries come from a matching row of
`latest`. -/
theorem mergeRowsFor_stats (latest : List Row) (w : GeoRow) :
    ∀ x ∈ mergeRowsFor latest w, ∀ r, x.stats = some r →
      r ∈ latest ∧ r.iso_code = some w.iso_a3 := by
  intro x hx r hr
  rw [mergeRowsFor] at hx
  rcases hm : matchesFor latest w with _ | ⟨m, ms⟩ <;> rw [hm] at hx
  · simp only [List.mem_singleton] at hx
    subst hx; exact absurd hr (by simp)
  · obtain ⟨q, hq, rfl⟩ := List.mem_map.mp hx
    have hq2 : q ∈ matchesFor latest w := hm ▸ hq
    have := List.mem_filter.mp hq2
    cases hr
    exact ⟨this.1, by simpa using this.2⟩

/-- Rows emitted for a left row other than `w` never count toward `w`. -/
theorem countP_mapDf_of_notMem (latest : List Row) (w : GeoRow) :
    ∀ world : List GeoRow, w ∉ world →
      (mapDf world latest).countP (fun x => x.region == w) = 0 := by
  intro world
  induction world with
  | nil => intro; rfl
  | cons v ws ih =>
      intro hw
      have hvw : v ≠ w := fun e => hw (e ▸ List.mem_cons_self v ws)
      have hws : w ∉ ws := fun e => hw (List.mem_cons_of_mem v e)
      rw [mapDf_cons, List.countP_append, ih hws, Nat.add_zero,
        List.countP_eq_zero]
      intro x hx
      have := mergeRowsFor_region latest v x hx
      simp [this, hvw]

/-- The rows a left merge emits for `w` number `max 1` (the number of
matches): one filler row when unmatched, one row per match otherwise. -/
theorem countP_mergeRowsFor_self (latest : List Row) (w : GeoRow) :
    (mergeRowsFor latest w).countP (fun x => x.region == w)
      = max 1 (matchesFor latest w).length := by
  rw [mergeRowsFor]
  rcases hm : matchesFor latest w with _ | ⟨m, ms⟩
  · have hw : ((⟨w, none⟩ : MapRow).region == w) = true := by simp
    simp [List.countP_cons, hw]
  · have hall : ∀ x ∈ (m :: ms).map (fun r => (⟨w, some r⟩ : MapRow)),
        (fun x : MapRow => x.region == w) x = true := by
      intro x hx
      obtain ⟨q, _, rfl⟩ := List.mem_map.mp hx
      simp
    rw [List.countP_eq_length.mpr hall, List.length_map, List.length_cons]
    exact (Nat.max_eq_right (Nat.succ_le_succ (Nat.zero_le _))).symm

/-- C6.  Choropleth merge: `map_df` is the left merge of the world
table with the latest per-location statistics on `iso_a3 = iso_code`:
every world region appears (exactly once when unmatched, once per
match otherwise — so exactly once whenever at most one latest row
matches it), matched rows carry that region's statistics, unmatched
regions carry missing values, and the shading value of a merged row is
its `total_cases` statistic. -/
theorem C6_choropleth_merge (world : List GeoRow) (rows : List Row) :
    (∀ w ∈ world, ∃ x ∈ mapDf world (latestTable rows), x.region = w) ∧
    (∀ x ∈ mapDf world (latestTable rows), x.region ∈ world) ∧
    (∀ x ∈ mapDf world (latestTable rows), ∀ r, x.stats = some r →
        r ∈ latestTable rows ∧ r.iso_code = some x.region.iso_a3) ∧
    (∀ w ∈ world, ∀ r ∈ latestTable rows, r.iso_code = some w.iso_a3 →
        (⟨w, some r⟩ : MapRow) ∈ mapDf world (latestTable rows)) ∧
    (∀ w ∈ world, matchesFor (latestTable rows) w = [] →
        ∀ x ∈ mapDf world (latestTable rows), x.region = w → x.stats = none) ∧
    (world.Nodup → ∀ w ∈ world,
        (mapDf world (latestTable rows)).countP (fun x => x.region == w)
          = max 1 (matchesFor (latestTable rows) w).length) ∧
    ∀ x ∈ mapDf world (latestTable rows),
      choroplethShade x = x.stats.bind (fun r => r.total_cases) ∧
      (x.stats = none → choroplethShade x = none) := by
  refine ⟨?_, ?_, ?_, ?_, ?_, ?_, ?_⟩
  · intro w hw
    rcases hm : matchesFor (latestTable rows) w with _ | ⟨m, ms⟩
    · refine ⟨⟨w, none⟩, ?_, rfl⟩
      exact List.mem_flatMap.mpr ⟨w, hw, by rw [mergeRowsFor, hm]; exact List.mem_singleton.mpr rfl⟩
    · refine ⟨⟨w, some m⟩, ?_, rfl⟩
      refine List.mem_flatMap.mpr ⟨w, hw, ?_⟩
      rw [mergeRowsFor, hm]
      exact List.mem_map.mpr ⟨m, List.mem_cons_self m ms, rfl⟩
  · intro x hx
    obtain ⟨w, hw, hxw⟩ := List.mem_flatMap.mp hx
    exact (mergeRowsFor_region _ w x hxw) ▸ hw
  · intro x hx r hr
    obtain ⟨w, _, hxw⟩ := List.mem_flatMap.mp hx
    have hreg := mergeRowsFor_region _ w x hxw
    have := mergeRowsFor_stats _ w x hxw r hr
    exact ⟨this.1, hreg ▸ this.2⟩
  · intro w hw r hr hiso
    refine List.mem_flatMap.mpr ⟨w, hw, ?_⟩
    have hrm : r ∈ matchesFor (latestTable rows) w :=
      List.mem_filter.mpr ⟨hr, by simp [hiso]⟩
    rw [mergeRowsFor]
    rcases hm : matchesFor (latestTable rows) w with _ | ⟨m, ms⟩
    · rw [hm] at hrm; exact absurd hrm (List.not_mem_nil r)
    · rw [hm] at hrm
      exact List.mem_map.mpr ⟨r, hrm, rfl⟩
  · intro w _ hempty x hx hreg
    obtain ⟨v, _, hxv⟩ := List.mem_flatMap.mp hx
    have hv := mergeRowsFor_region _ v x hxv
    have : v = w := by rw [← hreg, hv]
    subst this
    rw [mergeRowsFor, hempty] at hxv
    simp only [List.mem_singleton] at hxv
    subst hxv; rfl
  · intro hnd w hw
    induction world with
    | nil => exact absurd hw (List.not_mem_nil w)
    | cons v ws ih =>
        rw [mapDf_cons, List.countP_append]
        rcases List.mem_cons.mp hw with rfl | hw2
        · rw [countP_mergeRowsFor_self,
            countP_mapDf_of_notMem _ w ws (List.nodup_cons.mp hnd).1, Nat.add_zero]
        · have hvw : v ≠ w := by
            rintro rfl
            exact (List.nodup_cons.mp hnd).1 hw2
          have hzero : (mergeRowsFor (latestTable rows) v).countP
              (fun x => x.region == w) = 0 := by
            rw [List.countP_eq_zero]
            intro x hx
            have := mergeRowsFor_region _ v x hx
            simp [this, hvw]
          rw [hzero, Nat.zero_add]
          exact ih (List.nodup_cons.mp hnd).2 hw2
  · intro x _
    refine ⟨rfl, ?_⟩
    intro hnone
    rw [choroplethShade, hnone]
    rfl

/-- C6 witness: on the example world table and dataset, the United
States region appears in the merged frame, matched with its latest row,
and carries that row's `total_cases` as its shading value. -/
theorem C6_choropleth_merge_witness :
    (⟨⟨"USA", "United States of America"⟩, some rowA⟩ : MapRow)
        ∈ mapDf worldEx (latestTable rowsEx) ∧
    (mapDf worldEx (latestTable rowsEx)).countP
        (fun x => x.region == (⟨"FRA", "France"⟩ : GeoRow)) = 1 := by
  have h := C6_choropleth_merge worldEx rowsEx
  constructor
  · exact h.2.2.2.1 ⟨"USA", "United States of America"⟩ (by decide) rowA
      (by decide) rfl
  · have := h.2.2.2.2.2.1 (by decide) ⟨"FRA", "France"⟩ (by decide)
    rw [this]
    have : matchesFor (latestTable rowsEx) ⟨"FRA", "France"⟩ = [] := by decide
    rw [this]
    rfl

/-- The big-step menu relation agrees with the functional menu loop. -/
theorem menuTrace_runMenu (hasVax : Bool) :
    ∀ inputs t, MenuTrace hasVax inputs t → runMenu hasVax inputs = some t := by
  intro inputs t h
  induction h with
  | exit cs => rfl
  | step c cs t hc _ ih =>
      rw [runMenu_cons_ne hasVax c cs hc, ih]
      rfl

/-- The menu-loop big-step relation assigns at most one trace to an
input script. -/
theorem menuTrace_det (hasVax : Bool) :
    ∀ inputs t1 t2, MenuTrace hasVax inputs t1 → MenuTrace hasVax inputs t2 →
      t1 = t2 := by
  intro inputs t1 t2 h1 h2
  have e1 := menuTrace_runMenu hasVax inputs t1 h1
  have e2 := menuTrace_runMenu hasVax inputs t2 h2
  rw [e1] at e2
  exact Option.some_inj.mp e2

/-- C7.  Determinism: two runs of the pipeline on the same loaded
dataframe, the same world table and the same menu inputs produce the
same output (cleaned and filtered frames, charts, merged map, summary,
menu trace); the run relation is a function of its inputs. -/
theorem C7_pipeline_deterministic (world : List GeoRow) (df : DF)
    (inputs : List String) (o1 o2 : RunOutput)
    (h1 : PipelineRun world df inputs o1) (h2 : PipelineRun world df inputs o2) :
    o1 = o2 := by
  cases h1 with
  | mk t1 m1 =>
      cases h2 with
      | mk t2 m2 => rw [menuTrace_det df.hasVax inputs t1 t2 m1 m2]

/-- C7 witness: the two canonical runs of the example pipeline on the
input script `["5"]` coincide. -/
theorem C7_pipeline_deterministic_witness : outEx = outEx :=
  C7_pipeline_deterministic worldEx dfEx ["5"] outEx outEx
    (PipelineRun.mk dfEx ["5"] [MenuAction.exitMenu] (MenuTrace.exit []))
    (PipelineRun.mk dfEx ["5"] [MenuAction.exitMenu] (MenuTrace.exit []))

/-- C10.  The death-rate computation is an unguarded division; under
the precondition that every row of the latest-per-location table has a
strictly positive `total_cases`, every divisor is non-zero and the
division is well-defined (it inverts multiplication by the divisor). -/
theorem C10_deathRate_welldefined (rows : List Row)
    (hpos : ∀ r ∈ latestTable rows, ∃ c, r.total_cases = some c ∧ 0 < c) :
    ∀ r ∈ latestTable rows, ∃ c, r.total_cases = some c ∧ c ≠ 0 ∧
      ∀ d, r.total_deaths = some d →
        deathRate r = some (d / c) ∧ d / c * c = d := by
  intro r hr
  obtain ⟨c, hc, hcpos⟩ := hpos r hr
  refine ⟨c, hc, ne_of_gt hcpos, ?_⟩
  intro d hd
  exact ⟨by simp [deathRate, hd, hc], div_mul_cancel₀ d (ne_of_gt hcpos)⟩

/-- C10 witness: on the example dataset every latest row has positive
cases, so the United States division is well-defined. -/
theorem C10_deathRate_welldefined_witness :
    ∃ c, rowA.total_cases = some c ∧ c ≠ 0 ∧
      ∀ d, rowA.total_deaths = some d →
        deathRate rowA = some (d / c) ∧ d / c * c = d := by
  have hlt : latestTable rowsEx = [rowA, rowB] := by decide
  have hpos : ∀ r ∈ latestTable rowsEx, ∃ c, r.total_cases = some c ∧ 0 < c := by
    rw [hlt]
    intro r hr
    rcases List.mem_cons.mp hr with rfl | hr2
    · exact ⟨100, rfl, by norm_num⟩
    rcases List.mem_cons.mp hr2 with rfl | hr3
    · exact ⟨60, rfl, by norm_num⟩
    · exact absurd hr3 (List.not_mem_nil r)
  exact C10_deathRate_welldefined rowsEx hpos rowA
    (by rw [hlt]; exact List.mem_cons_self rowA [rowB])

end CovidTracker
